import Mathlib

/-!
# gojq: lowering of the query AST to bytecode (`compile.go`)

A shallow embedding of the compiler front of `compile.go`.  Go pointers are
`Option`s (`none` is `nil`), slices are `List`s, the mutable receiver `env` is
threaded explicitly, and a call yields an `Outcome`: either the returned Go
`error` value (`none` for `nil`) or the run-time panic that aborted the call.
The receiver itself is an allocated `env`; the AST nodes may be nil.
-/

namespace Gojq

/-! ## Instructions and the compiler state -/

/-- Modelled from the spec: the opcode tag of an instruction.  The type is
declared outside `compile.go`, which names a single constant, `opret`; every
other opcode of the instruction set is kept apart under `other`. -/
inductive opcode where
  | opret
  | other (tag : Nat)

/-- Modelled from the spec: a literal constant that an instruction may embed. -/
inductive Value where
  | null
  | bool (b : Bool)
  | number (n : Int)
  | string (s : String)
  | array (items : List Value)
  | object (fields : List (String × Value))

/-- Modelled from the spec: the operand of an instruction, "none, an integer
(jump target / slot index / arity), or an embedded constant value".  It is the
field `v` of `code`; `code{op: opret}` leaves it `nil`. -/
inductive operand where
  | nil
  | int (n : Int)
  | const (c : Value)

/-- The instruction record `code`, with the fields `op` and `v` that
`compile.go` and the tests read. -/
structure code where
  op : opcode
  v : operand

/-- The compiler state `env`: the instruction sequence emitted so far. -/
structure env where
  codes : List code

/-! ## The AST

The node types are declared outside `compile.go`; their fields are the ones
the lowering functions read, completed from the data model of the
specification. -/

/-- Modelled from the spec: the comparators and the arithmetic operators that
a `Compare`, `Arith` or `Factor` node carries with its right operand. -/
inductive Operator where
  | eq | ne | lt | le | gt | ge
  | add | sub
  | mul | div | mod

set_option maxHeartbeats 4000000 in
mutual

/-- Modelled from the spec: `Query(FuncDefs, Pipe)`. -/
inductive Query where
  | mk (FuncDefs : List (Option FuncDef)) (Pipe : Option Pipe)

/-- Modelled from the spec: a function definition `def name(args): body;`. -/
inductive FuncDef where
  | mk (Name : String) (Args : List String) (Body : Option Query)

/-- Modelled from the spec: `Pipe(ordered sequence of Comma)`. -/
inductive Pipe where
  | mk (Commas : List (Option Comma))

/-- Modelled from the spec: `Comma(ordered sequence of Alt)`. -/
inductive Comma where
  | mk (Alts : List (Option Alt))

/-- Modelled from the spec: `Alt(Left, optional Right)`, the right operands
being the fallbacks chained with the alternative operator. -/
inductive Alt where
  | mk (Left : Option Expr) (Right : List (Option Expr))

/-- Modelled from the spec: `Expr(Logic, optional variable-Bind, optional
Label)`. -/
inductive Expr where
  | mk (Logic : Option Logic) (Bind : Option ExprBind) (Label : Option String)

/-- Modelled from the spec: a variable binding `as $name | body`. -/
inductive ExprBind where
  | mk (Name : String) (Body : Option Pipe)

/-- Modelled from the spec: `Logic(Left AndExpr, chained Right via or)`. -/
inductive Logic where
  | mk (Left : Option AndExpr) (Right : List (Option AndExpr))

/-- Modelled from the spec: `AndExpr(Left Compare, chained Right via and)`. -/
inductive AndExpr where
  | mk (Left : Option Compare) (Right : List (Option Compare))

/-- Modelled from the spec: `Compare(Left Arith, optional Right +
comparator)`. -/
inductive Compare where
  | mk (Left : Option Arith) (Right : Option (Operator × Option Arith))

/-- Modelled from the spec: `Arith(Left Factor, optional Right + operator)`. -/
inductive Arith where
  | mk (Left : Option Factor) (Right : Option (Operator × Option Factor))

/-- Modelled from the spec: `Factor(Left Term, chained Right)`. -/
inductive Factor where
  | mk (Left : Option Term) (Right : List (Operator × Option Term))

/-- Modelled from the spec: the leaf forms of a `Term`: literal, field access,
index, function call, variable reference, object and array construction,
parenthesized `Pipe`. -/
inductive Term where
  | number (n : Int)
  | str (s : String)
  | field (name : String)
  | index (at_ : Option Pipe)
  | func (name : String) (args : List (Option Pipe))
  | variable (name : String)
  | object (fields : List (String × Option Expr))
  | array (body : Option Pipe)
  | paren (body : Option Pipe)

end

/-! ### Field selectors -/

/-- Field `FuncDefs` of a `Query`. -/
def Query.FuncDefs : Query → List (Option FuncDef)
  | .mk fs _ => fs

/-- Field `Pipe` of a `Query`. -/
def Query.Pipe : Query → Option Gojq.Pipe
  | .mk _ p => p

/-- Field `Commas` of a `Pipe`. -/
def Pipe.Commas : Pipe → List (Option Comma)
  | .mk cs => cs

/-- Field `Alts` of a `Comma`. -/
def Comma.Alts : Comma → List (Option Alt)
  | .mk as => as

/-- Field `Left` of an `Alt`. -/
def Alt.Left : Alt → Option Expr
  | .mk l _ => l

/-- Field `Right` of an `Alt`. -/
def Alt.Right : Alt → List (Option Expr)
  | .mk _ r => r

/-- Field `Logic` of an `Expr`. -/
def Expr.Logic : Expr → Option Gojq.Logic
  | .mk l _ _ => l

/-- Field `Bind` of an `Expr`. -/
def Expr.Bind : Expr → Option ExprBind
  | .mk _ b _ => b

/-- Field `Label` of an `Expr`. -/
def Expr.Label : Expr → Option String
  | .mk _ _ l => l

/-- Field `Left` of a `Logic`. -/
def Logic.Left : Logic → Option AndExpr
  | .mk l _ => l

/-- Field `Right` of a `Logic`. -/
def Logic.Right : Logic → List (Option AndExpr)
  | .mk _ r => r

/-- Field `Left` of an `AndExpr`. -/
def AndExpr.Left : AndExpr → Option Compare
  | .mk l _ => l

/-- Field `Right` of an `AndExpr`. -/
def AndExpr.Right : AndExpr → List (Option Compare)
  | .mk _ r => r

/-- Field `Left` of a `Compare`. -/
def Compare.Left : Compare → Option Arith
  | .mk l _ => l

/-- Field `Right` of a `Compare`. -/
def Compare.Right : Compare → Option (Operator × Option Arith)
  | .mk _ r => r

/-- Field `Left` of an `Arith`. -/
def Arith.Left : Arith → Option Factor
  | .mk l _ => l

/-- Field `Right` of an `Arith`. -/
def Arith.Right : Arith → Option (Operator × Option Factor)
  | .mk _ r => r

/-- Field `Left` of a `Factor`. -/
def Factor.Left : Factor → Option Term
  | .mk l _ => l

/-- Field `Right` of a `Factor`. -/
def Factor.Right : Factor → List (Operator × Option Term)
  | .mk _ r => r

/-! ## Outcomes of a call -/

/-- The run-time panics that the lowering functions can raise. -/
inductive runtimePanic where
  | nilDereference
  | indexOutOfRange (index length : Nat)
deriving DecidableEq

/-- What a call of a lowering function does: it returns a Go `error` value
(`none` is `nil`, `some msg` is `errors.New(msg)`), or it panics. -/
inductive Outcome where
  | returned (err : Option String)
  | panicked (p : runtimePanic)
deriving DecidableEq

/-! ## The lowering functions of `compile.go` -/

/-- The method `append`: `env.codes = append(env.codes, c)`. -/
def env.append (st : env) (c : code) : env :=
  ⟨st.codes ++ [c]⟩

/-- The method `compileTerm`: every `Term` is refused; the argument is not
dereferenced. -/
def compileTerm (st : env) (_e : Option Term) : Outcome × env :=
  (.returned (some "compileTerm"), st)

/-- The method `compileFactor`. -/
def compileFactor (st : env) (e : Option Factor) : Outcome × env :=
  match e with
  | none => (.panicked .nilDereference, st)
  | some e =>
    if e.Right.length > 0 then (.returned (some "compileFactor"), st)
    else compileTerm st e.Left

/-- The method `compileArith`. -/
def compileArith (st : env) (e : Option Arith) : Outcome × env :=
  match e with
  | none => (.panicked .nilDereference, st)
  | some e =>
    if e.Right.isSome then (.returned (some "compileArith"), st)
    else compileFactor st e.Left

/-- The method `compileCompare`. -/
def compileCompare (st : env) (e : Option Compare) : Outcome × env :=
  match e with
  | none => (.panicked .nilDereference, st)
  | some e =>
    if e.Right.isSome then (.returned (some "compileCompare"), st)
    else compileArith st e.Left

/-- The method `compileAndExpr`. -/
def compileAndExpr (st : env) (e : Option AndExpr) : Outcome × env :=
  match e with
  | none => (.panicked .nilDereference, st)
  | some e =>
    if e.Right.length > 0 then (.returned (some "compileAndExpr"), st)
    else compileCompare st e.Left

/-- The method `compileLogic`. -/
def compileLogic (st : env) (e : Option Logic) : Outcome × env :=
  match e with
  | none => (.panicked .nilDereference, st)
  | some e =>
    if e.Right.length > 0 then (.returned (some "compileLogic"), st)
    else compileAndExpr st e.Left

/-- The method `compileExpr`. -/
def compileExpr (st : env) (e : Option Expr) : Outcome × env :=
  match e with
  | none => (.panicked .nilDereference, st)
  | some e =>
    if e.Logic.isSome && e.Bind.isNone && e.Label.isNone then
      compileLogic st e.Logic
    else (.returned (some "compileExpr"), st)

/-- The method `compileAlt`. -/
def compileAlt (st : env) (e : Option Alt) : Outcome × env :=
  match e with
  | none => (.panicked .nilDereference, st)
  | some e =>
    if e.Right.length > 0 then (.returned (some "compileAlt"), st)
    else compileExpr st e.Left

/-- The method `compileComma`: `e.Alts[0]` is read without a bounds check. -/
def compileComma (st : env) (e : Option Comma) : Outcome × env :=
  match e with
  | none => (.panicked .nilDereference, st)
  | some e =>
    if e.Alts.length > 1 then (.returned (some "compileComma"), st)
    else
      match e.Alts with
      | [] => (.panicked (.indexOutOfRange 0 0), st)
      | a :: _ => compileAlt st a

/-- The loop of `compilePipe` over the stages that are left: it stops at the
first stage that does not return `nil`. -/
def compilePipe.loop (st : env) : List (Option Comma) → Outcome × env
  | [] => (.returned none, st)
  | c :: cs =>
    match compileComma st c with
    | (.returned none, st1) => compilePipe.loop st1 cs
    | r => r

/-- The method `compilePipe`. -/
def compilePipe (st : env) (e : Option Pipe) : Outcome × env :=
  match e with
  | none => (.panicked .nilDereference, st)
  | some e => compilePipe.loop st e.Commas

/-- The method `compileQuery`. -/
def compileQuery (st : env) (q : Option Query) : Outcome × env :=
  match q with
  | none => (.panicked .nilDereference, st)
  | some q =>
    if q.FuncDefs.length > 0 then (.returned (some "funcdef"), st)
    else
      match compilePipe st q.Pipe with
      | (.returned none, st1) => (.returned none, st1.append ⟨.opret, .nil⟩)
      | r => r

/-! ## Well-formed ASTs

What "no nil nodes" means to the lowering: the nodes it can reach, the `Left`
spine below each `Alt`.  The right operands and the contents of a `Term` are
never read and are left unconstrained, as is the leaf `Factor.Left`, which
`compileTerm` does not dereference. -/

/-- An `Arith` whose `Left` is not nil. -/
def Arith.noNil (e : Arith) : Bool :=
  e.Left.isSome

/-- A `Compare` with no nil node on its left spine. -/
def Compare.noNil (e : Compare) : Bool :=
  match e.Left with
  | none => false
  | some a => a.noNil

/-- An `AndExpr` with no nil node on its left spine. -/
def AndExpr.noNil (e : AndExpr) : Bool :=
  match e.Left with
  | none => false
  | some c => c.noNil

/-- A `Logic` with no nil node on its left spine. -/
def Logic.noNil (e : Logic) : Bool :=
  match e.Left with
  | none => false
  | some a => a.noNil

/-- An `Expr` with no nil node below it; its `Logic` is optional. -/
def Expr.noNil (e : Expr) : Bool :=
  match e.Logic with
  | none => true
  | some l => l.noNil

/-- An `Alt` with no nil node on its left spine. -/
def Alt.noNil (e : Alt) : Bool :=
  match e.Left with
  | none => false
  | some x => x.noNil

/-- A `Comma` none of whose `Alts` is nil or has a nil node on its spine. -/
def Comma.noNil (e : Comma) : Bool :=
  e.Alts.all fun a =>
    match a with
    | none => false
    | some a => a.noNil

/-- A `Comma` with no nil nodes that holds at least one `Alt`. -/
def Comma.wellFormed (e : Comma) : Bool :=
  !e.Alts.isEmpty && e.noNil

/-- A `Query` with no nil nodes: its `Pipe` and every stage of it. -/
def Query.noNil (q : Query) : Bool :=
  match q.Pipe with
  | none => false
  | some p =>
    p.Commas.all fun c =>
      match c with
      | none => false
      | some c => c.noNil

/-- A `Query` with no nil nodes and at least one `Alt` in every `Comma`. -/
def Query.wellFormed (q : Query) : Bool :=
  match q.Pipe with
  | none => false
  | some p =>
    p.Commas.all fun c =>
      match c with
      | none => false
      | some c => c.wellFormed

/-! ## The error a `Comma` is expected to give

The specification's reading of fail-fast: the levels of the precedence chain
are listed from the outside in, each with the test "an operator is applied
here", and the error is named after the first level that passes the test. -/

/-- The first `Alt` of a `Comma`, if any. -/
def Comma.alt (e : Comma) : Option Alt :=
  e.Alts.head?.join

/-- The `Expr` under the first `Alt`. -/
def Comma.expr (e : Comma) : Option Expr :=
  e.alt.bind Alt.Left

/-- The `Logic` under the first `Alt`. -/
def Comma.logic (e : Comma) : Option Logic :=
  e.expr.bind Expr.Logic

/-- The `AndExpr` under the first `Alt`. -/
def Comma.andExpr (e : Comma) : Option AndExpr :=
  e.logic.bind Logic.Left

/-- The `Compare` under the first `Alt`. -/
def Comma.compare (e : Comma) : Option Compare :=
  e.andExpr.bind AndExpr.Left

/-- The `Arith` under the first `Alt`. -/
def Comma.arith (e : Comma) : Option Arith :=
  e.compare.bind Compare.Left

/-- The `Factor` under the first `Alt`. -/
def Comma.factor (e : Comma) : Option Factor :=
  e.arith.bind Arith.Left

/-- The levels of the chain from the outside in, each with whether it carries
an operator: more than one `Alt`; a non-empty `Right`; an `Expr` without
`Logic` or with a `Bind` or a `Label`; a `Right` operand at the levels below. -/
def Comma.operatorLevels (e : Comma) : List (String × Bool) :=
  [ ("compileComma", decide (1 < e.Alts.length)),
    ("compileAlt", e.alt.any fun a => !a.Right.isEmpty),
    ("compileExpr", e.expr.any fun x =>
        x.Logic.isNone || x.Bind.isSome || x.Label.isSome),
    ("compileLogic", e.logic.any fun l => !l.Right.isEmpty),
    ("compileAndExpr", e.andExpr.any fun a => !a.Right.isEmpty),
    ("compileCompare", e.compare.any fun c => c.Right.isSome),
    ("compileArith", e.arith.any fun a => a.Right.isSome),
    ("compileFactor", e.factor.any fun f => !f.Right.isEmpty) ]

/-- The name of the outermost level that carries an operator, and
`compileTerm` when no level does. -/
def Comma.namedError (e : Comma) : String :=
  match e.operatorLevels.find? fun l => l.2 with
  | some l => l.1
  | none => "compileTerm"

/-! ## The ASTs of the queries of `compiler_test.go` -/

/-- The operator-free chain `Expr > Logic > ... > Factor` over a `Term`. -/
def Term.liftExpr (t : Term) : Expr :=
  .mk (some (.mk (some (.mk (some (.mk (some (.mk (some (.mk (some t) []))
    none)) none)) [])) [])) none none

/-- The operator-free `Alt` over a `Term`. -/
def Term.liftAlt (t : Term) : Alt :=
  .mk (some t.liftExpr) []

/-- The one-stage `Pipe` whose `Comma` holds the single `Alt` over a `Term`. -/
def Term.liftPipe (t : Term) : Pipe :=
  .mk [some (.mk [some t.liftAlt])]

/-- The AST of `[1,{foo:2},[3]]` (`TestCodeCompile_OptimizeConstants`). -/
def constantsQuery : Query :=
  .mk [] (some (Term.liftPipe (.array (some (.mk [some (.mk
    [ some (Term.number 1).liftAlt,
      some (Term.object [("foo", some (Term.number 2).liftExpr)]).liftAlt,
      some (Term.array (some (Term.number 3).liftPipe)).liftAlt ])])))))

/-- The AST of `range(10)` (`TestCodeCompile_OptimizeTailRec`). -/
def rangeQuery : Query :=
  .mk [] (some (Term.func "range" [some (Term.number 10).liftPipe]).liftPipe)

/-- The AST of `def f: 1; def g: 2; def h: 3; f`
(`TestCodeCompile_OptimizeJumps`). -/
def jumpsQuery : Query :=
  .mk
    [ some (.mk "f" [] (some (.mk [] (some (Term.number 1).liftPipe)))),
      some (.mk "g" [] (some (.mk [] (some (Term.number 2).liftPipe)))),
      some (.mk "h" [] (some (.mk [] (some (Term.number 3).liftPipe)))) ]
    (some (Term.func "f" []).liftPipe)

/-- A `Query` whose only stage is a `Comma` with zero alternatives. -/
def emptyCommaQuery : Query :=
  .mk [] (some (.mk [some (.mk [])]))

/-- A `Comma` with an operator at the `Logic` level and further operators at
the `Arith` and `Factor` levels below it. -/
def maskedComma : Comma :=
  .mk [some (.mk (some (.mk (some (.mk
    (some (.mk (some (.mk (some (.mk (some (.mk none
      [(Operator.mul, none)])) (some (Operator.add, none))))
      none)) []))
    [none])) none none)) [])]

/-- An `env` that already holds one instruction. -/
def env.one : env :=
  ⟨[⟨.opret, .nil⟩]⟩

/-- A `Query` with no function definitions and a `Pipe` of zero stages. -/
def emptyQuery : Query :=
  .mk [] (some (.mk []))

/-! ## Sequencing of lowering steps -/

/-- The outcome of a step followed by a second one: the second step runs, from
the `env` the first one left, only when the first returned `nil`; otherwise
the outcome and the `env` of the first step stand. -/
def sequenced (r : Outcome × env) (next : env → Outcome × env) : Outcome × env :=
  match r with
  | (.returned none, st1) => next st1
  | r => r

/-! ## Frame lemmas: what each level returns and leaves in `env` -/

theorem compileTerm_eq (st : env) (e : Option Term) :
    compileTerm st e = (.returned (some "compileTerm"), st) := rfl

theorem compileFactor_frame (st : env) (e : Option Factor) :
    (compileFactor st e).2 = st ∧ (compileFactor st e).1 ≠ .returned none := by
  cases e with
  | none => simp [compileFactor]
  | some e =>
    simp only [compileFactor, compileTerm]
    split <;> simp

theorem compileArith_frame (st : env) (e : Option Arith) :
    (compileArith st e).2 = st ∧ (compileArith st e).1 ≠ .returned none := by
  cases e with
  | none => simp [compileArith]
  | some e =>
    simp only [compileArith]
    split
    · simp
    · exact compileFactor_frame st e.Left

theorem compileCompare_frame (st : env) (e : Option Compare) :
    (compileCompare st e).2 = st ∧ (compileCompare st e).1 ≠ .returned none := by
  cases e with
  | none => simp [compileCompare]
  | some e =>
    simp only [compileCompare]
    split
    · simp
    · exact compileArith_frame st e.Left

theorem compileAndExpr_frame (st : env) (e : Option AndExpr) :
    (compileAndExpr st e).2 = st ∧ (compileAndExpr st e).1 ≠ .returned none := by
  cases e with
  | none => simp [compileAndExpr]
  | some e =>
    simp only [compileAndExpr]
    split
    · simp
    · exact compileCompare_frame st e.Left

theorem compileLogic_frame (st : env) (e : Option Logic) :
    (compileLogic st e).2 = st ∧ (compileLogic st e).1 ≠ .returned none := by
  cases e with
  | none => simp [compileLogic]
  | some e =>
    simp only [compileLogic]
    split
    · simp
    · exact compileAndExpr_frame st e.Left

theorem compileExpr_frame (st : env) (e : Option Expr) :
    (compileExpr st e).2 = st ∧ (compileExpr st e).1 ≠ .returned none := by
  cases e with
  | none => simp [compileExpr]
  | some e =>
    simp only [compileExpr]
    split
    · exact compileLogic_frame st e.Logic
    · simp

theorem compileAlt_frame (st : env) (e : Option Alt) :
    (compileAlt st e).2 = st ∧ (compileAlt st e).1 ≠ .returned none := by
  cases e with
  | none => simp [compileAlt]
  | some e =>
    simp only [compileAlt]
    split
    · simp
    · exact compileExpr_frame st e.Left

theorem compileComma_frame (st : env) (e : Option Comma) :
    (compileComma st e).2 = st ∧ (compileComma st e).1 ≠ .returned none := by
  cases e with
  | none => simp [compileComma]
  | some e =>
    simp only [compileComma]
    split
    · simp
    · split
      · simp
      · exact compileAlt_frame st _

/-- A non-empty pipe stops at its first stage, with that stage's outcome. -/
theorem compilePipe_loop_cons (st : env) (c : Option Comma)
    (cs : List (Option Comma)) :
    compilePipe.loop st (c :: cs) = compileComma st c := by
  have h := (compileComma_frame st c).2
  simp only [compilePipe.loop]
  split
  · next st1 heq => rw [heq] at h; exact absurd rfl h
  · rfl

theorem compilePipe_loop_frame (st : env) (cs : List (Option Comma)) :
    (compilePipe.loop st cs).2 = st := by
  cases cs with
  | nil => rfl
  | cons c cs =>
    rw [compilePipe_loop_cons]
    exact (compileComma_frame st c).1

theorem compilePipe_loop_ok_iff (st : env) (cs : List (Option Comma)) :
    (compilePipe.loop st cs).1 = .returned none ↔ cs = [] := by
  cases cs with
  | nil => simp [compilePipe.loop]
  | cons c cs =>
    rw [compilePipe_loop_cons]
    simpa using (compileComma_frame st c).2

theorem compilePipe_frame (st : env) (e : Option Pipe) :
    (compilePipe st e).2 = st := by
  cases e with
  | none => rfl
  | some e => exact compilePipe_loop_frame st e.Commas

/-- The outcome of `compileQuery` in terms of the outcome of the pipe. -/
theorem compileQuery_some (st : env) (q : Query) :
    compileQuery st (some q) =
      if q.FuncDefs.length > 0 then (.returned (some "funcdef"), st)
      else if (compilePipe st q.Pipe).1 = .returned none then
        (.returned none, st.append ⟨.opret, .nil⟩)
      else ((compilePipe st q.Pipe).1, st) := by
  have hs := compilePipe_frame st q.Pipe
  simp only [compileQuery]
  split
  · rfl
  · split
    · next st1 heq =>
      rw [heq] at hs
      simp only at hs
      subst hs
      rw [if_pos (by rw [heq])]
    · next r hne =>
      have h1 : (compilePipe st q.Pipe).1 ≠ .returned none := by
        intro h
        exact hne (compilePipe st q.Pipe).2 (by rw [← h])
      rw [if_neg h1]
      exact Prod.ext rfl hs

/-! ## Well-formed stages are refused with a named error -/

theorem compileComma_of_wellFormed (st : env) (e : Comma)
    (h : e.wellFormed = true) :
    compileComma st (some e) = (.returned (some e.namedError), st) := by
  rcases e with ⟨alts⟩
  rcases alts with _ | ⟨a, rest⟩
  · simp [Comma.wellFormed, Comma.noNil, Alt.noNil, Expr.noNil, Logic.noNil, AndExpr.noNil, Compare.noNil, Arith.noNil, Comma.Alts, Alt.Left, Expr.Logic, Logic.Left, AndExpr.Left, Compare.Left, Arith.Left] at h
  rcases rest with _ | ⟨b, rest⟩
  swap
  · simp [compileComma, compileAlt, compileExpr, compileLogic, compileAndExpr, compileCompare, compileArith, compileFactor, compileTerm, Comma.namedError, Comma.operatorLevels, Comma.alt, Comma.expr, Comma.logic, Comma.andExpr, Comma.compare, Comma.arith, Comma.factor, Comma.Alts, Alt.Left, Alt.Right, Expr.Logic, Expr.Bind, Expr.Label, Logic.Left, Logic.Right, AndExpr.Left, AndExpr.Right, Compare.Left, Compare.Right, Arith.Left, Arith.Right, Factor.Left, Factor.Right]
  rcases a with _ | ⟨left, right⟩
  · simp [Comma.wellFormed, Comma.noNil, Alt.noNil, Expr.noNil, Logic.noNil, AndExpr.noNil, Compare.noNil, Arith.noNil, Comma.Alts, Alt.Left, Expr.Logic, Logic.Left, AndExpr.Left, Compare.Left, Arith.Left] at h
  rcases right with _ | ⟨o, right⟩
  swap
  · simp [compileComma, compileAlt, compileExpr, compileLogic, compileAndExpr, compileCompare, compileArith, compileFactor, compileTerm, Comma.namedError, Comma.operatorLevels, Comma.alt, Comma.expr, Comma.logic, Comma.andExpr, Comma.compare, Comma.arith, Comma.factor, Comma.Alts, Alt.Left, Alt.Right, Expr.Logic, Expr.Bind, Expr.Label, Logic.Left, Logic.Right, AndExpr.Left, AndExpr.Right, Compare.Left, Compare.Right, Arith.Left, Arith.Right, Factor.Left, Factor.Right]
  rcases left with _ | ⟨logic, bind, label⟩
  · simp [Comma.wellFormed, Comma.noNil, Alt.noNil, Expr.noNil, Logic.noNil, AndExpr.noNil, Compare.noNil, Arith.noNil, Comma.Alts, Alt.Left, Expr.Logic, Logic.Left, AndExpr.Left, Compare.Left, Arith.Left] at h
  rcases bind with _ | bind
  swap
  · simp [compileComma, compileAlt, compileExpr, compileLogic, compileAndExpr, compileCompare, compileArith, compileFactor, compileTerm, Comma.namedError, Comma.operatorLevels, Comma.alt, Comma.expr, Comma.logic, Comma.andExpr, Comma.compare, Comma.arith, Comma.factor, Comma.Alts, Alt.Left, Alt.Right, Expr.Logic, Expr.Bind, Expr.Label, Logic.Left, Logic.Right, AndExpr.Left, AndExpr.Right, Compare.Left, Compare.Right, Arith.Left, Arith.Right, Factor.Left, Factor.Right]
  rcases label with _ | label
  swap
  · simp [compileComma, compileAlt, compileExpr, compileLogic, compileAndExpr, compileCompare, compileArith, compileFactor, compileTerm, Comma.namedError, Comma.operatorLevels, Comma.alt, Comma.expr, Comma.logic, Comma.andExpr, Comma.compare, Comma.arith, Comma.factor, Comma.Alts, Alt.Left, Alt.Right, Expr.Logic, Expr.Bind, Expr.Label, Logic.Left, Logic.Right, AndExpr.Left, AndExpr.Right, Compare.Left, Compare.Right, Arith.Left, Arith.Right, Factor.Left, Factor.Right]
  rcases logic with _ | ⟨left, right⟩
  · simp [compileComma, compileAlt, compileExpr, compileLogic, compileAndExpr, compileCompare, compileArith, compileFactor, compileTerm, Comma.namedError, Comma.operatorLevels, Comma.alt, Comma.expr, Comma.logic, Comma.andExpr, Comma.compare, Comma.arith, Comma.factor, Comma.Alts, Alt.Left, Alt.Right, Expr.Logic, Expr.Bind, Expr.Label, Logic.Left, Logic.Right, AndExpr.Left, AndExpr.Right, Compare.Left, Compare.Right, Arith.Left, Arith.Right, Factor.Left, Factor.Right]
  rcases right with _ | ⟨o, right⟩
  swap
  · simp [compileComma, compileAlt, compileExpr, compileLogic, compileAndExpr, compileCompare, compileArith, compileFactor, compileTerm, Comma.namedError, Comma.operatorLevels, Comma.alt, Comma.expr, Comma.logic, Comma.andExpr, Comma.compare, Comma.arith, Comma.factor, Comma.Alts, Alt.Left, Alt.Right, Expr.Logic, Expr.Bind, Expr.Label, Logic.Left, Logic.Right, AndExpr.Left, AndExpr.Right, Compare.Left, Compare.Right, Arith.Left, Arith.Right, Factor.Left, Factor.Right]
  rcases left with _ | ⟨left, right⟩
  · simp [Comma.wellFormed, Comma.noNil, Alt.noNil, Expr.noNil, Logic.noNil, AndExpr.noNil, Compare.noNil, Arith.noNil, Comma.Alts, Alt.Left, Expr.Logic, Logic.Left, AndExpr.Left, Compare.Left, Arith.Left] at h
  rcases right with _ | ⟨o, right⟩
  swap
  · simp [compileComma, compileAlt, compileExpr, compileLogic, compileAndExpr, compileCompare, compileArith, compileFactor, compileTerm, Comma.namedError, Comma.operatorLevels, Comma.alt, Comma.expr, Comma.logic, Comma.andExpr, Comma.compare, Comma.arith, Comma.factor, Comma.Alts, Alt.Left, Alt.Right, Expr.Logic, Expr.Bind, Expr.Label, Logic.Left, Logic.Right, AndExpr.Left, AndExpr.Right, Compare.Left, Compare.Right, Arith.Left, Arith.Right, Factor.Left, Factor.Right]
  rcases left with _ | ⟨left, right⟩
  · simp [Comma.wellFormed, Comma.noNil, Alt.noNil, Expr.noNil, Logic.noNil, AndExpr.noNil, Compare.noNil, Arith.noNil, Comma.Alts, Alt.Left, Expr.Logic, Logic.Left, AndExpr.Left, Compare.Left, Arith.Left] at h
  rcases right with _ | o
  swap
  · simp [compileComma, compileAlt, compileExpr, compileLogic, compileAndExpr, compileCompare, compileArith, compileFactor, compileTerm, Comma.namedError, Comma.operatorLevels, Comma.alt, Comma.expr, Comma.logic, Comma.andExpr, Comma.compare, Comma.arith, Comma.factor, Comma.Alts, Alt.Left, Alt.Right, Expr.Logic, Expr.Bind, Expr.Label, Logic.Left, Logic.Right, AndExpr.Left, AndExpr.Right, Compare.Left, Compare.Right, Arith.Left, Arith.Right, Factor.Left, Factor.Right]
  rcases left with _ | ⟨left, right⟩
  · simp [Comma.wellFormed, Comma.noNil, Alt.noNil, Expr.noNil, Logic.noNil, AndExpr.noNil, Compare.noNil, Arith.noNil, Comma.Alts, Alt.Left, Expr.Logic, Logic.Left, AndExpr.Left, Compare.Left, Arith.Left] at h
  rcases right with _ | o
  swap
  · simp [compileComma, compileAlt, compileExpr, compileLogic, compileAndExpr, compileCompare, compileArith, compileFactor, compileTerm, Comma.namedError, Comma.operatorLevels, Comma.alt, Comma.expr, Comma.logic, Comma.andExpr, Comma.compare, Comma.arith, Comma.factor, Comma.Alts, Alt.Left, Alt.Right, Expr.Logic, Expr.Bind, Expr.Label, Logic.Left, Logic.Right, AndExpr.Left, AndExpr.Right, Compare.Left, Compare.Right, Arith.Left, Arith.Right, Factor.Left, Factor.Right]
  rcases left with _ | ⟨left, right⟩
  · simp [Comma.wellFormed, Comma.noNil, Alt.noNil, Expr.noNil, Logic.noNil, AndExpr.noNil, Compare.noNil, Arith.noNil, Comma.Alts, Alt.Left, Expr.Logic, Logic.Left, AndExpr.Left, Compare.Left, Arith.Left] at h
  rcases right with _ | ⟨o, right⟩
  swap
  · simp [compileComma, compileAlt, compileExpr, compileLogic, compileAndExpr, compileCompare, compileArith, compileFactor, compileTerm, Comma.namedError, Comma.operatorLevels, Comma.alt, Comma.expr, Comma.logic, Comma.andExpr, Comma.compare, Comma.arith, Comma.factor, Comma.Alts, Alt.Left, Alt.Right, Expr.Logic, Expr.Bind, Expr.Label, Logic.Left, Logic.Right, AndExpr.Left, AndExpr.Right, Compare.Left, Compare.Right, Arith.Left, Arith.Right, Factor.Left, Factor.Right]
  simp [compileComma, compileAlt, compileExpr, compileLogic, compileAndExpr, compileCompare, compileArith, compileFactor, compileTerm, Comma.namedError, Comma.operatorLevels, Comma.alt, Comma.expr, Comma.logic, Comma.andExpr, Comma.compare, Comma.arith, Comma.factor, Comma.Alts, Alt.Left, Alt.Right, Expr.Logic, Expr.Bind, Expr.Label, Logic.Left, Logic.Right, AndExpr.Left, AndExpr.Right, Compare.Left, Compare.Right, Arith.Left, Arith.Right, Factor.Left, Factor.Right]

theorem compilePipe_of_wellFormed (st : env) (p : Pipe) (c : Option Comma)
    (cs : List (Option Comma)) (hp : p.Commas = c :: cs)
    (h : (Query.mk [] (some p)).wellFormed = true) :
    ∃ msg, compilePipe st (some p) = (.returned (some msg), st) := by
  simp only [Query.wellFormed, Query.Pipe, hp, List.all_cons, Bool.and_eq_true] at h
  cases c with
  | none => simp at h
  | some c =>
    refine ⟨c.namedError, ?_⟩
    simp only [compilePipe, hp, compilePipe_loop_cons]
    exact compileComma_of_wellFormed st c h.1

/-! ## The claims -/

/-- C1: a failed compilation emits nothing.  Whenever `compileQuery` returns
an error, whatever the query (nil nodes and empty `Comma`s included),
`env.codes` after the call is `env.codes` before it. -/
theorem compileQuery_error_keeps_codes (st : env) (q : Option Query)
    (msg : String) (h : (compileQuery st q).1 = .returned (some msg)) :
    (compileQuery st q).2.codes = st.codes := by
  cases q with
  | none => rfl
  | some q =>
    rw [compileQuery_some] at h ⊢
    split at h
    · rw [if_pos (by assumption)]
    · rw [if_neg (by assumption)]
      split at h
      · simp at h
      · rw [if_neg (by assumption)]

theorem compileQuery_error_keeps_codes_witness :
    (compileQuery env.one (some rangeQuery)).1 = .returned (some "compileTerm") ∧
      (compileQuery env.one (some rangeQuery)).2.codes = env.one.codes :=
  ⟨rfl, compileQuery_error_keeps_codes env.one (some rangeQuery) "compileTerm" rfl⟩

/-- C2: a query with at least one function definition is refused with the
error `funcdef`, whatever its `Pipe` is (nil included); the pipe is not
compiled and `env` is left as it was. -/
theorem compileQuery_funcdef (st : env) (q : Query) (h : q.FuncDefs ≠ []) :
    compileQuery st (some q) = (.returned (some "funcdef"), st) := by
  rw [compileQuery_some, if_pos]
  exact List.length_pos.mpr h

theorem compileQuery_funcdef_witness :
    (Query.mk [none] none).FuncDefs ≠ [] ∧
      compileQuery env.one (some (Query.mk [none] none)) =
        (.returned (some "funcdef"), env.one) :=
  ⟨by simp [Query.FuncDefs],
    compileQuery_funcdef env.one (Query.mk [none] none) (by simp [Query.FuncDefs])⟩

/-- C3: pure pass-through.  For a `Comma` with exactly one `Alt` and no
operator at any level of the chain below it, `compileComma` and every level
in between return exactly what `compileTerm` returns on the leaf
`Factor.Left`, error value and resulting `env` alike: no level adds an
instruction of its own. -/
theorem compileComma_passThrough (st : env) (e : Comma) (a : Alt) (x : Expr)
    (l : Logic) (n : AndExpr) (c : Compare) (r : Arith) (f : Factor)
    (hAlts : e.Alts = [some a])
    (hAlt : a.Left = some x ∧ a.Right = [])
    (hExpr : x.Logic = some l ∧ x.Bind = none ∧ x.Label = none)
    (hLogic : l.Left = some n ∧ l.Right = [])
    (hAnd : n.Left = some c ∧ n.Right = [])
    (hCompare : c.Left = some r ∧ c.Right = none)
    (hArith : r.Left = some f ∧ r.Right = none)
    (hFactor : f.Right = []) :
    compileComma st (some e) = compileTerm st f.Left ∧
      compileAlt st (some a) = compileTerm st f.Left ∧
      compileExpr st (some x) = compileTerm st f.Left ∧
      compileLogic st (some l) = compileTerm st f.Left ∧
      compileAndExpr st (some n) = compileTerm st f.Left ∧
      compileCompare st (some c) = compileTerm st f.Left ∧
      compileArith st (some r) = compileTerm st f.Left ∧
      compileFactor st (some f) = compileTerm st f.Left := by
  have h8 : compileFactor st (some f) = compileTerm st f.Left := by
    simp [compileFactor, hFactor]
  have h7 : compileArith st (some r) = compileTerm st f.Left := by
    simp [compileArith, hArith.1, hArith.2, h8]
  have h6 : compileCompare st (some c) = compileTerm st f.Left := by
    simp [compileCompare, hCompare.1, hCompare.2, h7]
  have h5 : compileAndExpr st (some n) = compileTerm st f.Left := by
    simp [compileAndExpr, hAnd.1, hAnd.2, h6]
  have h4 : compileLogic st (some l) = compileTerm st f.Left := by
    simp [compileLogic, hLogic.1, hLogic.2, h5]
  have h3 : compileExpr st (some x) = compileTerm st f.Left := by
    simp [compileExpr, hExpr.1, hExpr.2.1, hExpr.2.2, h4]
  have h2 : compileAlt st (some a) = compileTerm st f.Left := by
    simp [compileAlt, hAlt.1, hAlt.2, h3]
  have h1 : compileComma st (some e) = compileTerm st f.Left := by
    simp [compileComma, hAlts, h2]
  exact ⟨h1, h2, h3, h4, h5, h6, h7, h8⟩

theorem compileComma_passThrough_witness :
    compileComma env.one (some (.mk [some (Term.number 1).liftAlt])) =
      compileTerm env.one (some (Term.number 1)) :=
  (compileComma_passThrough env.one (.mk [some (Term.number 1).liftAlt])
    (Term.number 1).liftAlt (Term.number 1).liftExpr
    (.mk (some (.mk (some (.mk (some (.mk (some (.mk (some (.number 1)) []))
      none)) none)) [])) [])
    (.mk (some (.mk (some (.mk (some (.mk (some (.number 1)) [])) none)) none)) [])
    (.mk (some (.mk (some (.mk (some (.number 1)) [])) none)) none)
    (.mk (some (.mk (some (.number 1)) [])) none)
    (.mk (some (.number 1)) [])
    rfl ⟨rfl, rfl⟩ ⟨rfl, rfl, rfl⟩ ⟨rfl, rfl⟩ ⟨rfl, rfl⟩ ⟨rfl, rfl⟩ ⟨rfl, rfl⟩
    rfl).1

/-- C4: the error names the first unsupported construct met top-down.  For a
`Comma` with at least one `Alt` and no nil node, `compileComma` returns the
error named after the outermost level that carries an operator, in the order
`compileComma`, `compileAlt`, `compileExpr`, `compileLogic`,
`compileAndExpr`, `compileCompare`, `compileArith`, `compileFactor`, and
`compileTerm` when no level carries one; `env` is left as it was. -/
theorem compileComma_namedError (st : env) (e : Comma)
    (h : e.wellFormed = true) :
    compileComma st (some e) = (.returned (some e.namedError), st) :=
  compileComma_of_wellFormed st e h

theorem compileComma_namedError_witness :
    maskedComma.wellFormed = true ∧
      compileComma env.one (some maskedComma) =
        (.returned (some "compileLogic"), env.one) :=
  ⟨rfl, compileComma_namedError env.one maskedComma rfl⟩

/-- C5: the code refuses the constant aggregate `[1,{foo:2},[3]]`.  The query
is well formed and has no function definitions, yet `compileQuery` from an
empty `env` returns the error `compileTerm` and leaves zero instructions,
where `TestCodeCompile_OptimizeConstants` expects success and three. -/
theorem compileQuery_constantsQuery :
    constantsQuery.wellFormed = true ∧ constantsQuery.FuncDefs = [] ∧
      compileQuery ⟨[]⟩ (some constantsQuery) =
        (.returned (some "compileTerm"), ⟨[]⟩) :=
  ⟨rfl, rfl, rfl⟩

/-- C6: the code refuses `def f: 1; def g: 2; def h: 3; f`.  `compileQuery`
from an empty `env` returns the error `funcdef` and leaves zero instructions,
where `TestCodeCompile_OptimizeJumps` expects success and fifteen. -/
theorem compileQuery_jumpsQuery :
    jumpsQuery.wellFormed = true ∧
      compileQuery ⟨[]⟩ (some jumpsQuery) = (.returned (some "funcdef"), ⟨[]⟩) :=
  ⟨rfl, rfl⟩

/-- C7: the code refuses `range(10)`.  The query is well formed and has no
function definitions, yet `compileQuery` from an empty `env` returns the error
`compileTerm` and leaves zero instructions, where
`TestCodeCompile_OptimizeTailRec` expects success and eighty-five. -/
theorem compileQuery_rangeQuery :
    rangeQuery.wellFormed = true ∧ rangeQuery.FuncDefs = [] ∧
      compileQuery ⟨[]⟩ (some rangeQuery) =
        (.returned (some "compileTerm"), ⟨[]⟩) :=
  ⟨rfl, rfl, rfl⟩

/-- C8, as stated, fails: a query with no nil node whose pipe holds a `Comma`
with zero alternatives makes `compileComma` read `e.Alts[0]` out of range, so
`compileQuery` returns neither success nor an error value. -/
theorem compileQuery_emptyComma_panics :
    emptyCommaQuery.noNil = true ∧
      (compileQuery ⟨[]⟩ (some emptyCommaQuery)).1 =
        .panicked (.indexOutOfRange 0 0) ∧
      ¬ ∃ err, (compileQuery ⟨[]⟩ (some emptyCommaQuery)).1 = .returned err :=
  ⟨rfl, rfl, fun ⟨_, h⟩ => Outcome.noConfusion h⟩

/-- C8, amended: for every `env` and every query with no nil node and at least
one `Alt` in every `Comma`, `compileQuery` returns, with success or with an
error value; it does not panic. -/
theorem compileQuery_returns (st : env) (q : Query)
    (h : q.wellFormed = true) :
    ∃ err, (compileQuery st (some q)).1 = .returned err := by
  rw [compileQuery_some]
  split
  · exact ⟨_, rfl⟩
  · split
    · exact ⟨_, rfl⟩
    · rcases q with ⟨fs, pipe⟩
      rcases pipe with _ | p
      · simp [Query.wellFormed, Query.Pipe] at h
      · rcases hc : p.Commas with _ | ⟨c, cs⟩
        · exact ⟨none, by simp [Query.Pipe, compilePipe, hc, compilePipe.loop]⟩
        · obtain ⟨msg, hmsg⟩ := compilePipe_of_wellFormed st p c cs hc h
          exact ⟨some msg, by simp [Query.Pipe, hmsg]⟩

theorem compileQuery_returns_witness :
    rangeQuery.wellFormed = true ∧
      ∃ err, (compileQuery env.one (some rangeQuery)).1 = .returned err :=
  ⟨rfl, compileQuery_returns env.one rangeQuery rfl⟩

/-- C10: the compilable queries.  For every `env` and every query with no nil
node and at least one `Alt` in every `Comma`, `compileQuery` succeeds exactly
when the query has no function definitions and its pipe has no stages, and a
query whose pipe has at least one stage is refused with an error. -/
theorem compileQuery_succeeds_iff (st : env) (q : Query) (p : Pipe)
    (h : q.wellFormed = true) (hp : q.Pipe = some p) :
    ((compileQuery st (some q)).1 = .returned none ↔
        q.FuncDefs = [] ∧ p.Commas = []) ∧
      (p.Commas ≠ [] → ∃ msg, (compileQuery st (some q)).1 = .returned (some msg)) := by
  rcases q with ⟨fs, pipe⟩
  simp only [Query.Pipe] at hp
  subst hp
  have hok : (compilePipe st (some p)).1 = .returned none ↔ p.Commas = [] :=
    compilePipe_loop_ok_iff st p.Commas
  constructor
  · rw [compileQuery_some]
    simp only [Query.FuncDefs, Query.Pipe]
    rcases fs with _ | ⟨f, fs⟩
    · by_cases hc : p.Commas = []
      · simp [hok, hc]
      · simp [hok, hc]
    · simp
  · intro hne
    rw [compileQuery_some]
    simp only [Query.FuncDefs, Query.Pipe]
    split
    · exact ⟨_, rfl⟩
    · rcases hc : p.Commas with _ | ⟨c, cs⟩
      · exact absurd hc hne
      · obtain ⟨msg, hmsg⟩ := compilePipe_of_wellFormed st p c cs hc h
        exact ⟨msg, by simp [hmsg]⟩

theorem compileQuery_succeeds_iff_witness :
    ((compileQuery env.one (some rangeQuery)).1 = .returned none ↔
        rangeQuery.FuncDefs = [] ∧
          (Term.func "range" [some (Term.number 10).liftPipe]).liftPipe.Commas = []) ∧
      ((Term.func "range" [some (Term.number 10).liftPipe]).liftPipe.Commas ≠ [] →
        ∃ msg, (compileQuery env.one (some rangeQuery)).1 = .returned (some msg)) :=
  compileQuery_succeeds_iff env.one rangeQuery _ rfl rfl

/-! ## Sequencing and what is left in `env.codes` -/

theorem sequenced_of_ne (r : Outcome × env) (next : env → Outcome × env)
    (h : r.1 ≠ .returned none) : sequenced r next = r := by
  unfold sequenced
  split
  · exact absurd rfl h
  · rfl

theorem compilePipe_loop_append (st : env) (cs ds : List (Option Comma)) :
    compilePipe.loop st (cs ++ ds) =
      sequenced (compilePipe.loop st cs) fun st1 => compilePipe.loop st1 ds := by
  induction cs generalizing st with
  | nil => rfl
  | cons c cs ih =>
    simp only [List.cons_append, compilePipe.loop]
    split
    · exact ih _
    · next r hne =>
      refine (sequenced_of_ne _ _ ?_).symm
      intro h
      exact hne (compileComma st c).2 (Prod.ext h rfl)

theorem compileQuery_env (st : env) (q : Option Query) :
    (compileQuery st q).2 = st ∨
      (compileQuery st q).2 = st.append ⟨.opret, .nil⟩ := by
  cases q with
  | none => exact Or.inl rfl
  | some q =>
    rw [compileQuery_some]
    split
    · exact Or.inl rfl
    · split
      · exact Or.inr rfl
      · exact Or.inl rfl

theorem codes_initial_of_eq (st st1 : env) (h : st1 = st) :
    st.codes <+: st1.codes :=
  ⟨[], by simp [h]⟩

/-- C11: pipe stages are compiled left to right and sequenced.  `compilePipe`
on the stages `cs ++ ds` is `compilePipe` on `cs` followed, only when that
returned `nil`, by `compilePipe` on `ds` from the `env` it left; and when the
stages `cs` succeed and the next stage `c` does not, the outcome and the
`env` are those of `c`, whatever stages `ds` come after it. -/
theorem compilePipe_append (st : env) (cs ds : List (Option Comma)) :
    compilePipe st (some (.mk (cs ++ ds))) =
        sequenced (compilePipe st (some (.mk cs))) (fun st1 =>
          compilePipe st1 (some (.mk ds))) ∧
      ∀ (c : Option Comma) (st1 : env),
        compilePipe st (some (.mk cs)) = (.returned none, st1) →
        (compileComma st1 c).1 ≠ .returned none →
        compilePipe st (some (.mk (cs ++ c :: ds))) = compileComma st1 c := by
  constructor
  · exact compilePipe_loop_append st cs ds
  · intro c st1 hcs hc
    simp only [compilePipe, Pipe.Commas] at hcs ⊢
    rw [compilePipe_loop_append, hcs]
    simp only [sequenced, compilePipe.loop]
    split
    · next st2 heq => rw [heq] at hc; exact absurd rfl hc
    · rfl

theorem compilePipe_append_witness :
    compilePipe env.one (some (.mk ([] ++ some maskedComma :: [none]))) =
      compileComma env.one (some maskedComma) :=
  (compilePipe_append env.one [] [none]).2 (some maskedComma) env.one rfl
    (by decide)

/-- C12: the return terminator.  If `compileQuery` succeeds, the query is not
nil and the resulting `env.codes` is the instruction list left by
`compilePipe` on `q.Pipe` followed by exactly one more instruction, whose
opcode is `opret`: the last instruction is `opret` and the length is one more
than that of the code of the pipe. -/
theorem compileQuery_opret (st : env) (q : Option Query)
    (h : (compileQuery st q).1 = .returned none) :
    ∃ q0 : Query, q = some q0 ∧
      (compileQuery st q).2.codes =
        (compilePipe st q0.Pipe).2.codes ++ [⟨.opret, .nil⟩] ∧
      (compileQuery st q).2.codes.getLast?.map code.op = some .opret ∧
      (compileQuery st q).2.codes.length =
        (compilePipe st q0.Pipe).2.codes.length + 1 := by
  cases q with
  | none => simp [compileQuery] at h
  | some q =>
    refine ⟨q, rfl, ?_⟩
    have hcodes : (compileQuery st (some q)).2.codes =
        (compilePipe st q.Pipe).2.codes ++ [⟨.opret, .nil⟩] := by
      rw [compileQuery_some] at h ⊢
      split at h
      · simp at h
      · rw [if_neg (by assumption)]
        split at h
        · rw [if_pos (by assumption), compilePipe_frame]
          rfl
        · exact absurd h (by assumption)
    rw [hcodes]
    simp

theorem compileQuery_opret_witness :
    (compileQuery env.one (some emptyQuery)).1 = .returned none ∧
      ∃ q0 : Query, some emptyQuery = some q0 ∧
        (compileQuery env.one (some emptyQuery)).2.codes =
          (compilePipe env.one q0.Pipe).2.codes ++ [⟨.opret, .nil⟩] ∧
        (compileQuery env.one (some emptyQuery)).2.codes.getLast?.map code.op =
          some .opret ∧
        (compileQuery env.one (some emptyQuery)).2.codes.length =
          (compilePipe env.one q0.Pipe).2.codes.length + 1 :=
  ⟨rfl, compileQuery_opret env.one (some emptyQuery) rfl⟩

/-- C13: emitted instructions keep their addresses.  After each of
`compileQuery`, `compilePipe`, `compileComma`, `compileAlt`, `compileExpr`,
`compileLogic`, `compileAndExpr`, `compileCompare`, `compileArith`,
`compileFactor` and `compileTerm`, however the call ends, the `env.codes` from
before the call is an initial segment of `env.codes` after it; `append` puts
exactly one instruction at the end and changes none already present. -/
theorem codes_kept (st : env) (q : Option Query) (p : Option Pipe)
    (c : Option Comma) (a : Option Alt) (x : Option Expr) (l : Option Logic)
    (n : Option AndExpr) (m : Option Compare) (r : Option Arith)
    (f : Option Factor) (t : Option Term) (i : code) :
    st.codes <+: (compileQuery st q).2.codes ∧
      st.codes <+: (compilePipe st p).2.codes ∧
      st.codes <+: (compileComma st c).2.codes ∧
      st.codes <+: (compileAlt st a).2.codes ∧
      st.codes <+: (compileExpr st x).2.codes ∧
      st.codes <+: (compileLogic st l).2.codes ∧
      st.codes <+: (compileAndExpr st n).2.codes ∧
      st.codes <+: (compileCompare st m).2.codes ∧
      st.codes <+: (compileArith st r).2.codes ∧
      st.codes <+: (compileFactor st f).2.codes ∧
      st.codes <+: (compileTerm st t).2.codes ∧
      (st.append i).codes = st.codes ++ [i] := by
  refine ⟨?_, codes_initial_of_eq _ _ (compilePipe_frame st p),
    codes_initial_of_eq _ _ (compileComma_frame st c).1,
    codes_initial_of_eq _ _ (compileAlt_frame st a).1,
    codes_initial_of_eq _ _ (compileExpr_frame st x).1,
    codes_initial_of_eq _ _ (compileLogic_frame st l).1,
    codes_initial_of_eq _ _ (compileAndExpr_frame st n).1,
    codes_initial_of_eq _ _ (compileCompare_frame st m).1,
    codes_initial_of_eq _ _ (compileArith_frame st r).1,
    codes_initial_of_eq _ _ (compileFactor_frame st f).1,
    codes_initial_of_eq _ _ rfl, rfl⟩
  rcases compileQuery_env st q with h | h
  · exact codes_initial_of_eq _ _ h
  · rw [h]
    exact ⟨[⟨.opret, .nil⟩], rfl⟩

end Gojq
